import Mathlib

/-!
Verification of `fix_padding.py` from `Alabar_Site_V3/public/assets/images/`.

The script loads the JSON document `collectables.json`, adds the constant
`OFFSET = 2` to the `x` and `y` fields of the nested `frame` object of every
value of the top-level `frames` mapping, writes the result to
`collectables_padded.json` pretty-printed with 2-space indentation, and prints
one confirmation line.

Embedding choices:
* JSON values are a tree (`Json`); objects are association lists preserving
  insertion order, matching Python dicts produced by `json.load`.
* JSON integer literals are embedded as unbounded integers (`Int`), matching
  Python's arbitrary-precision `int`; non-integer literals are embedded as
  IEEE-754 doubles (`Float`), matching Python's `float`, so `f + 2` is
  double addition in both. The serializer's rendering of non-integer numbers
  approximates CPython's `repr`; no theorem serializes a document containing
  one.
* `frame["x"] += OFFSET` succeeds on Python numbers; Python booleans are
  numeric (`True + 2 == 3`), so `addInt` also covers `Json.bool`, and any
  other value raises `TypeError`, embedded as `none`.
* The whole script is `runScript`, a function of the result of reading the
  input path, returning the trace of observable events (file writes and
  console output) plus a success flag; `false` means the process terminated
  with an unhandled exception after producing exactly the listed events.
-/

namespace FixPadding

/-- A JSON value as produced by `json.load`: objects are ordered association
lists; integer literals are unbounded integers (`num`), non-integer literals
are IEEE-754 doubles (`flt`), as in CPython. -/
inductive Json where
  | null : Json
  | bool : Bool → Json
  | num : Int → Json
  | flt : Float → Json
  | str : String → Json
  | arr : List Json → Json
  | obj : List (String × Json) → Json
deriving Repr

/-- `d[key]` on a Python dict: the value at the first (for parsed JSON, only)
binding of `key`. -/
def getKey : List (String × Json) → String → Option Json
  | [], _ => none
  | (k, v) :: rest, key => if k = key then some v else getKey rest key

/-- `d[key] = v` on a Python dict when `key` is already present: replace the
value in place, keeping insertion order. -/
def setKey : List (String × Json) → String → Json → List (String × Json)
  | [], _, _ => []
  | (k, v) :: rest, key, newV =>
      if k = key then (k, newV) :: rest else (k, v) :: setKey rest key newV

/-- The padding constant of the script (`OFFSET = 2`). -/
def OFFSET : Int := 2

/-- Python `v + off` for `off : int`: succeeds on `int` (exact, arbitrary
precision), on `float` (IEEE double addition after converting `off`, exact
for `off = 2`) and on `bool` (`True + 2 == 3`), raises `TypeError`
otherwise. -/
def addInt : Json → Int → Option Json
  | .num n, off => some (.num (n + off))
  | .flt f, off => some (.flt (f + Float.ofInt off))
  | .bool b, off => some (.num ((if b then 1 else 0) + off))
  | _, _ => none

/-- `frame[key] += off`: `KeyError` if `key` is absent, `TypeError` if the
value does not support `+ int`, otherwise update in place. -/
def addOffsetAt (fields : List (String × Json)) (key : String) (off : Int) :
    Option (List (String × Json)) :=
  match getKey fields key with
  | none => none
  | some v =>
    match addInt v off with
    | none => none
    | some v2 => some (setKey fields key v2)

/-- Body of the loop for one `frame_data`:
`frame = frame_data["frame"]; frame["x"] += OFFSET; frame["y"] += OFFSET`.
Any lookup on a non-dict or a missing key raises, embedded as `none`. -/
def fixEntry : Json → Option Json
  | .obj fields =>
    match getKey fields "frame" with
    | some (.obj ff) =>
      match addOffsetAt ff "x" OFFSET with
      | none => none
      | some f1 =>
        match addOffsetAt f1 "y" OFFSET with
        | none => none
        | some f2 => some (.obj (setKey fields "frame" (.obj f2)))
    | some _ => none
    | none => none
  | _ => none

/-- Apply `f` to every value of an association list in order, failing as soon
as `f` fails (the loop raises on the first bad entry). -/
def mapValsM (f : Json → Option Json) : List (String × Json) →
    Option (List (String × Json))
  | [] => some []
  | (k, v) :: rest =>
    match f v with
    | none => none
    | some v2 =>
      match mapValsM f rest with
      | none => none
      | some rest2 => some ((k, v2) :: rest2)

/-- The whole transformation on the loaded document:
`for frame_data in data["frames"].values(): ...` mutating `data` in place.
`data["frames"]` must exist and be a dict (otherwise `KeyError` /
`TypeError` / `AttributeError`), and every entry must be fixable. -/
def fixFrames : Json → Option Json
  | .obj fields =>
    match getKey fields "frames" with
    | some (.obj frames) =>
      match mapValsM fixEntry frames with
      | none => none
      | some frames2 => some (.obj (setKey fields "frames" (.obj frames2)))
    | some _ => none
    | none => none
  | _ => none

/-! ### The serializer: `json.dump(data, f, indent=2)`.

With `indent=2` and default arguments, Python's encoder separates items by
`",\n"`, keys from values by `": "`, indents each nesting level by two more
spaces, escapes `"` and `\` and control characters, and (with the default
`ensure_ascii=True`) escapes every character outside `0x20..0x7E` as `\uXXXX`
(a surrogate pair above `0xFFFF`). No trailing newline is written. -/

/-- Two spaces per indentation level (`indent=2`). -/
def indentStr : Nat → String
  | 0 => ""
  | n + 1 => "  " ++ indentStr n

/-- Lower-case hexadecimal digit, as Python emits in `\uXXXX` escapes. -/
def hexDigit (n : Nat) : Char :=
  if n < 10 then Char.ofNat (48 + n) else Char.ofNat (97 + (n - 10))

/-- Four lower-case hex digits. -/
def hex4 (n : Nat) : String :=
  String.mk [hexDigit (n / 4096 % 16), hexDigit (n / 256 % 16),
             hexDigit (n / 16 % 16), hexDigit (n % 16)]

/-- Escape one character as Python's `ensure_ascii` encoder does. -/
def escapeChar (c : Char) : String :=
  if c = '"' then "\\\""
  else if c = '\\' then "\\\\"
  else if c = '\n' then "\\n"
  else if c = '\r' then "\\r"
  else if c = '\t' then "\\t"
  else if c = '\x08' then "\\b"
  else if c = '\x0c' then "\\f"
  else if c.toNat < 32 ∨ 126 < c.toNat then
    if c.toNat < 65536 then "\\u" ++ hex4 c.toNat
    else
      "\\u" ++ hex4 (55296 + (c.toNat - 65536) / 1024) ++
      "\\u" ++ hex4 (56320 + (c.toNat - 65536) % 1024)
  else String.singleton c

/-- A JSON string literal, quoted and escaped. -/
def encodeString (s : String) : String :=
  "\"" ++ String.join (s.toList.map escapeChar) ++ "\""

/-- Rendering of a non-integer number. CPython emits `repr(float)`
(shortest round-trip decimal); this model uses Lean's `Float` rendering as
an approximation of that text. No theorem serializes a document containing
a non-integer number, so nothing proved depends on this branch. -/
def floatRepr (f : Float) : String := toString f

mutual

/-- Serialize a value at nesting level `lvl` (Python `json.dump` with
`indent=2`): empty containers are inline, non-empty ones put each child on
its own line indented one level deeper. -/
def dumpsAux : Nat → Json → String
  | _, .null => "null"
  | _, .bool true => "true"
  | _, .bool false => "false"
  | _, .num n => toString n
  | _, .flt f => floatRepr f
  | _, .str s => encodeString s
  | _, .arr [] => "[]"
  | lvl, .arr (x :: xs) =>
      "[\n" ++ dumpsItems (lvl + 1) x xs ++ "\n" ++ indentStr lvl ++ "]"
  | _, .obj [] => "\x7b\x7d"
  | lvl, .obj (f :: fs) =>
      "\x7b\n" ++ dumpsFields (lvl + 1) f fs ++ "\n" ++ indentStr lvl ++ "\x7d"
termination_by _ j => sizeOf j

/-- Array elements, one per line, separated by `",\n"`. -/
def dumpsItems : Nat → Json → List Json → String
  | lvl, x, [] => indentStr lvl ++ dumpsAux lvl x
  | lvl, x, y :: rest =>
      indentStr lvl ++ dumpsAux lvl x ++ ",\n" ++ dumpsItems lvl y rest
termination_by _ x xs => sizeOf x + sizeOf xs

/-- Object members in insertion order, `"key": value`, separated by `",\n"`. -/
def dumpsFields : Nat → (String × Json) → List (String × Json) → String
  | lvl, (k, v), [] => indentStr lvl ++ encodeString k ++ ": " ++ dumpsAux lvl v
  | lvl, (k, v), g :: rest =>
      indentStr lvl ++ encodeString k ++ ": " ++ dumpsAux lvl v ++ ",\n" ++
      dumpsFields lvl g rest
termination_by _ f fs => sizeOf f + sizeOf fs

end

/-- `json.dump(data, f, indent=2)`: the exact text written to the output
file. -/
def dumps (j : Json) : String := dumpsAux 0 j

/-! ### The script as a whole -/

/-- An observable effect of the script, in order of occurrence. -/
inductive Event where
  | fileWrite : String → String → Event
  | consoleOut : String → Event
deriving Repr, DecidableEq

/-- Outcome of one run: the observable events in order, and whether the
process reached the end of the script (`ok = false` means it terminated with
an unhandled exception right after the listed events). -/
structure RunResult where
  events : List Event
  ok : Bool
deriving Repr, DecidableEq

/-- Result of `json.load(open(path))`: the file may be absent
(`FileNotFoundError`), unparseable (`JSONDecodeError`) or a parsed value. -/
inductive ReadResult where
  | missing : ReadResult
  | invalid : ReadResult
  | parsed : Json → ReadResult

/-- The hard-coded input path. -/
def inputPath : String := "collectables.json"

/-- The hard-coded output path. -/
def outputPath : String := "collectables_padded.json"

/-- The single confirmation line printed on success (without the newline
`print` appends). -/
def successMessage : String := "✅ JSON corrigido (padding apenas nas bordas)"

/-- The whole script, as a function of what reading the file system at a path
yields. Load the input; transform; on any failure terminate with no events
(every failure point precedes the opening of the output file); on success
write the serialized document to the output path and then print the
confirmation line. -/
def runScript (readFS : String → ReadResult) : RunResult :=
  match readFS inputPath with
  | .missing => ⟨[], false⟩
  | .invalid => ⟨[], false⟩
  | .parsed data =>
    match fixFrames data with
    | none => ⟨[], false⟩
    | some out =>
        ⟨[.fileWrite outputPath (dumps out), .consoleOut successMessage], true⟩

/-- The paths of the files the run created or overwrote. -/
def writtenPaths (r : RunResult) : List String :=
  r.events.filterMap fun e =>
    match e with
    | .fileWrite p _ => some p
    | .consoleOut _ => none

/-- The lines the run printed to standard output. -/
def printedLines (r : RunResult) : List String :=
  r.events.filterMap fun e =>
    match e with
    | .fileWrite _ _ => none
    | .consoleOut s => some s

/-! ### Shape predicates and accessors -/

/-- A value Python can add an `int` to without raising: exactly the domain of
`addInt` (integers, floats, and booleans, which are numeric in Python). -/
def isNumeric : Json → Bool
  | .num _ => true
  | .flt _ => true
  | .bool _ => true
  | _ => false

/-- A JSON number proper: an integer or a non-integer (float) literal,
excluding booleans. -/
def isNumber : Json → Bool
  | .num _ => true
  | .flt _ => true
  | _ => false

/-- The box has a numeric value at key `k`. -/
def numericAt (ff : List (String × Json)) (k : String) : Bool :=
  match getKey ff k with
  | some v => isNumeric v
  | none => false

/-- The loop body succeeds on this frame entry: it is an object with a
`"frame"` object whose `"x"` and `"y"` are present and numeric. -/
def entryOk : Json → Bool
  | .obj fields =>
    match getKey fields "frame" with
    | some (.obj ff) => numericAt ff "x" && numericAt ff "y"
    | _ => false
  | _ => false

/-- A frame entry of a valid Atlas Document: an object with a `"frame"`
object whose `"x"` and `"y"` are JSON numbers. -/
def entryValid : Json → Bool
  | .obj fields =>
    match getKey fields "frame" with
    | some (.obj ff) =>
      (match getKey ff "x" with
       | some (.num _) => true
       | _ => false) &&
      (match getKey ff "y" with
       | some (.num _) => true
       | _ => false)
    | _ => false
  | _ => false

/-- A valid Atlas Document: a JSON object whose `"frames"` key maps ids to
valid frame entries. -/
def validDoc : Json → Bool
  | .obj fields =>
    match getKey fields "frames" with
    | some (.obj frames) => frames.all fun p => entryValid p.2
    | _ => false
  | _ => false

/-- The `"frames"` association list of a document, when the document is an
object and that key holds an object. -/
def framesOf : Json → Option (List (String × Json))
  | .obj fields =>
    match getKey fields "frames" with
    | some (.obj frames) => some frames
    | _ => none
  | _ => none

/-- The frame ids of a document, in insertion order. -/
def frameIds (j : Json) : Option (List String) :=
  (framesOf j).map (List.map Prod.fst)

/-- The document has some frame entry the loop body would raise on. -/
def docHasBadEntry (j : Json) : Bool :=
  match framesOf j with
  | some frames => frames.any fun p => !entryOk p.2
  | none => false

/-- The value at coordinate `c` of the `"frame"` box of an entry. -/
def entryCoord : Json → String → Option Json
  | .obj fields, c =>
    match getKey fields "frame" with
    | some (.obj ff) => getKey ff c
    | _ => none
  | _, _ => none

/-- The value at coordinate `c` of the `"frame"` box of the entry named `id`
in the document's `"frames"` mapping. -/
def coordOf (j : Json) (id c : String) : Option Json :=
  match framesOf j with
  | some frames =>
    match getKey frames id with
    | some e => entryCoord e c
    | none => none
  | none => none

/-- The box has a JSON-number value (integer or float) at key `k`. -/
def numberAt (ff : List (String × Json)) (k : String) : Bool :=
  match getKey ff k with
  | some v => isNumber v
  | none => false

/-- A frame entry whose `"frame"` object has number-valued `"x"` and `"y"`:
integers or non-integer floats, negative, zero or arbitrarily large. -/
def entryNumeric : Json → Bool
  | .obj fields =>
    match getKey fields "frame" with
    | some (.obj ff) => numberAt ff "x" && numberAt ff "y"
    | _ => false
  | _ => false

/-- A document whose `"frames"` is an object and whose every frame entry has
number-valued `"x"` and `"y"` (the precondition of the implicit safety
claim). -/
def numDoc (j : Json) : Bool :=
  match framesOf j with
  | some frames => frames.all fun p => entryNumeric p.2
  | none => false

/-! ### Concrete documents used as evaluation witnesses -/

/-- One frame entry with extra fields at every level. -/
def sampleFrames : List (String × Json) :=
  [("coin.png", .obj
     [("frame", .obj
        [("x", .num 7), ("y", .num 11), ("w", .num 32), ("h", .num 32)]),
      ("rotated", .bool false)])]

/-- The document fields of `sampleDoc`. -/
def sampleFields : List (String × Json) :=
  [("frames", .obj sampleFrames), ("meta", .str "atlas")]

/-- A small valid Atlas Document: one frame with extra fields everywhere. -/
def sampleDoc : Json := .obj sampleFields

/-- A document with one well-formed and one malformed frame entry (its `"x"`
is a string, so `frame["x"] += OFFSET` raises `TypeError`). -/
def mixedBadDoc : Json :=
  .obj [("frames", .obj
          [("good.png", .obj
             [("frame", .obj [("x", .num 0), ("y", .num 1)])]),
           ("bad.png", .obj
             [("frame", .obj [("x", .str "oops"), ("y", .num 1)])])])]

/-- The document fields of `emptyFramesDoc`. -/
def emptyFramesFields : List (String × Json) :=
  [("frames", .obj []), ("meta", .str "atlas")]

/-- A document whose `"frames"` mapping is empty, plus an extra field. -/
def emptyFramesDoc : Json := .obj emptyFramesFields

/-- A number-valued document with negative, zero, very large and
non-integer (float) coordinates. -/
def extremeDoc : Json :=
  .obj [("frames", .obj
    [("a", .obj [("frame", .obj [("x", .num (-7)), ("y", .num 0)])]),
     ("b", .obj [("frame", .obj
        [("x", .num 123456789012345678901234567890),
         ("y", .num (-98765432109876543210))])]),
     ("c", .obj [("frame", .obj
        [("x", .flt 1.5), ("y", .flt (-0.25))])])])]

/-- The per-entry shape of structural preservation: the output entry has the
same keys in the same order at the entry level and inside the `"frame"` box,
and the same values everywhere except at `"x"` and `"y"`. -/
def entryPreserved (e e2 : Json) : Prop :=
  ∀ fields ff, e = .obj fields → getKey fields "frame" = some (.obj ff) →
    ∃ fields2 ff2, e2 = .obj fields2 ∧
      fields2.map Prod.fst = fields.map Prod.fst ∧
      (∀ k, k ≠ "frame" → getKey fields2 k = getKey fields k) ∧
      getKey fields2 "frame" = some (.obj ff2) ∧
      ff2.map Prod.fst = ff.map Prod.fst ∧
      (∀ k, k ≠ "x" → k ≠ "y" → getKey ff2 k = getKey ff k)

/-! ### Association-list lemmas -/

theorem getKey_setKey_self (l : List (String × Json)) (k : String) (v w : Json)
    (h : getKey l k = some w) : getKey (setKey l k v) k = some v := by
  induction l with
  | nil => simp [getKey] at h
  | cons p rest ih =>
    obtain ⟨k1, v1⟩ := p
    by_cases hk : k1 = k
    · subst hk
      simp [getKey, setKey]
    · simp only [getKey, setKey, if_neg hk] at h ⊢
      exact ih h

theorem getKey_setKey_ne (l : List (String × Json)) (k k2 : String) (v : Json)
    (h : k ≠ k2) : getKey (setKey l k v) k2 = getKey l k2 := by
  induction l with
  | nil => simp [setKey]
  | cons p rest ih =>
    obtain ⟨k1, v1⟩ := p
    by_cases hk : k1 = k
    · subst hk
      simp [getKey, setKey, if_neg h]
    · simp only [setKey, if_neg hk, getKey]
      by_cases hk2 : k1 = k2
      · simp [if_pos hk2]
      · simp [if_neg hk2, ih]

theorem keys_setKey (l : List (String × Json)) (k : String) (v : Json) :
    (setKey l k v).map Prod.fst = l.map Prod.fst := by
  induction l with
  | nil => simp [setKey]
  | cons p rest ih =>
    obtain ⟨k1, v1⟩ := p
    by_cases hk : k1 = k
    · simp [setKey, if_pos hk]
    · simp [setKey, if_neg hk, ih]

theorem setKey_self (l : List (String × Json)) (k : String) (v : Json)
    (h : getKey l k = some v) : setKey l k v = l := by
  induction l with
  | nil => simp [getKey] at h
  | cons p rest ih =>
    obtain ⟨k1, v1⟩ := p
    by_cases hk : k1 = k
    · subst hk
      simp [getKey] at h
      simp [setKey, h]
    · simp only [getKey, if_neg hk] at h
      simp [setKey, if_neg hk, ih h]

theorem getKey_mem (l : List (String × Json)) (k : String) (v : Json)
    (h : getKey l k = some v) : (k, v) ∈ l := by
  induction l with
  | nil => simp [getKey] at h
  | cons p rest ih =>
    obtain ⟨k1, v1⟩ := p
    by_cases hk : k1 = k
    · subst hk
      simp [getKey] at h
      simp [h]
    · simp only [getKey, if_neg hk] at h
      exact List.mem_cons_of_mem _ (ih h)

/-! ### Characterizations of the shape predicates -/

theorem entryValid_iff (e : Json) :
    entryValid e = true ↔
      ∃ fields ff a b, e = .obj fields ∧
        getKey fields "frame" = some (.obj ff) ∧
        getKey ff "x" = some (.num a) ∧ getKey ff "y" = some (.num b) := by
  constructor
  · intro he
    cases e with
    | obj fields =>
      simp only [entryValid] at he
      cases hf : getKey fields "frame" with
      | none => rw [hf] at he; simp at he
      | some v =>
        rw [hf] at he
        cases v with
        | obj ff =>
          simp only [Bool.and_eq_true] at he
          obtain ⟨h1, h2⟩ := he
          cases hx : getKey ff "x" with
          | none => rw [hx] at h1; simp at h1
          | some vx =>
            rw [hx] at h1
            cases hy : getKey ff "y" with
            | none => rw [hy] at h2; simp at h2
            | some vy =>
              rw [hy] at h2
              cases vx with
              | num a =>
                cases vy with
                | num b => exact ⟨fields, ff, a, b, rfl, hf, hx, hy⟩
                | null => simp at h2
                | bool c => simp at h2
                | flt f => simp at h2
                | str s => simp at h2
                | arr xs => simp at h2
                | obj o => simp at h2
              | null => simp at h1
              | bool c => simp at h1
              | flt f => simp at h1
              | str s => simp at h1
              | arr xs => simp at h1
              | obj o => simp at h1
        | null => simp at he
        | bool c => simp at he
        | num n => simp at he
        | flt f => simp at he
        | str s => simp at he
        | arr xs => simp at he
    | null => simp [entryValid] at he
    | bool b => simp [entryValid] at he
    | num n => simp [entryValid] at he
    | flt f => simp [entryValid] at he
    | str s => simp [entryValid] at he
    | arr xs => simp [entryValid] at he
  · rintro ⟨fields, ff, a, b, rfl, hf, hx, hy⟩
    simp [entryValid, hf, hx, hy]

theorem validDoc_iff (j : Json) :
    validDoc j = true ↔
      ∃ frames, framesOf j = some frames ∧
        ∀ p ∈ frames, entryValid p.2 = true := by
  cases j with
  | obj fields =>
    simp only [validDoc, framesOf]
    cases hf : getKey fields "frames" with
    | none => simp
    | some v =>
      cases v with
      | obj frames => simp [List.all_eq_true]
      | null => simp
      | bool b => simp
      | num n => simp
      | flt f => simp
      | str s => simp
      | arr xs => simp
  | null => simp [validDoc, framesOf]
  | bool b => simp [validDoc, framesOf]
  | num n => simp [validDoc, framesOf]
  | flt f => simp [validDoc, framesOf]
  | str s => simp [validDoc, framesOf]
  | arr xs => simp [validDoc, framesOf]

theorem framesOf_eq_some (j : Json) (frames : List (String × Json)) :
    framesOf j = some frames ↔
      ∃ fields, j = .obj fields ∧ getKey fields "frames" = some (.obj frames) := by
  cases j with
  | obj fields =>
    simp only [framesOf]
    cases hf : getKey fields "frames" with
    | none =>
      constructor
      · intro h
        exact absurd h (by simp)
      · rintro ⟨fields2, heq, hf2⟩
        cases heq
        rw [hf] at hf2
        simp at hf2
    | some v =>
      cases v with
      | obj fr =>
        simp only [Option.some.injEq]
        constructor
        · rintro rfl
          exact ⟨fields, rfl, hf⟩
        · rintro ⟨fields2, heq, hf2⟩
          cases heq
          rw [hf] at hf2
          cases hf2
          rfl
      | null =>
        constructor
        · intro h
          exact absurd h (by simp)
        · rintro ⟨fields2, heq, hf2⟩
          cases heq
          rw [hf] at hf2
          simp at hf2
      | bool b =>
        constructor
        · intro h
          exact absurd h (by simp)
        · rintro ⟨fields2, heq, hf2⟩
          cases heq
          rw [hf] at hf2
          simp at hf2
      | num n =>
        constructor
        · intro h
          exact absurd h (by simp)
        · rintro ⟨fields2, heq, hf2⟩
          cases heq
          rw [hf] at hf2
          simp at hf2
      | flt f =>
        constructor
        · intro h
          exact absurd h (by simp)
        · rintro ⟨fields2, heq, hf2⟩
          cases heq
          rw [hf] at hf2
          simp at hf2
      | str s =>
        constructor
        · intro h
          exact absurd h (by simp)
        · rintro ⟨fields2, heq, hf2⟩
          cases heq
          rw [hf] at hf2
          simp at hf2
      | arr xs =>
        constructor
        · intro h
          exact absurd h (by simp)
        · rintro ⟨fields2, heq, hf2⟩
          cases heq
          rw [hf] at hf2
          simp at hf2
  | null => simp [framesOf]
  | bool b => simp [framesOf]
  | num n => simp [framesOf]
  | flt f => simp [framesOf]
  | str s => simp [framesOf]
  | arr xs => simp [framesOf]

/-! ### The transformation on one entry -/

theorem addOffsetAt_num (ff : List (String × Json)) (k : String) (off a : Int)
    (h : getKey ff k = some (.num a)) :
    addOffsetAt ff k off = some (setKey ff k (.num (a + off))) := by
  simp [addOffsetAt, h, addInt]

theorem fixEntry_of_valid (e : Json) (he : entryValid e = true) :
    ∃ e2, fixEntry e = some e2 ∧ entryValid e2 = true ∧
      (∀ a, entryCoord e "x" = some (.num a) →
        entryCoord e2 "x" = some (.num (a + OFFSET))) ∧
      (∀ b, entryCoord e "y" = some (.num b) →
        entryCoord e2 "y" = some (.num (b + OFFSET))) ∧
      entryPreserved e e2 := by
  obtain ⟨fields, ff, a, b, rfl, hf, hx, hy⟩ := (entryValid_iff e).1 he
  have hgy : getKey (setKey ff "x" (.num (a + OFFSET))) "y" = some (.num b) := by
    rw [getKey_setKey_ne _ _ _ _ (by decide)]
    exact hy
  refine ⟨.obj (setKey fields "frame"
      (.obj (setKey (setKey ff "x" (.num (a + OFFSET))) "y" (.num (b + OFFSET))))),
    ?_, ?_, ?_, ?_, ?_⟩
  · simp [fixEntry, hf, addOffsetAt_num _ _ _ _ hx, addOffsetAt_num _ _ _ _ hgy]
  · refine (entryValid_iff _).2
      ⟨_, _, a + OFFSET, b + OFFSET, rfl, getKey_setKey_self _ _ _ _ hf, ?_, ?_⟩
    · rw [getKey_setKey_ne _ _ _ _ (by decide)]
      exact getKey_setKey_self _ _ _ _ hx
    · exact getKey_setKey_self _ _ _ _ hgy
  · intro a2 ha2
    simp only [entryCoord, hf] at ha2
    rw [hx] at ha2
    cases ha2
    simp only [entryCoord, getKey_setKey_self _ _ _ _ hf]
    rw [getKey_setKey_ne _ _ _ _ (by decide)]
    exact getKey_setKey_self _ _ _ _ hx
  · intro b2 hb2
    simp only [entryCoord, hf] at hb2
    rw [hy] at hb2
    cases hb2
    simp only [entryCoord, getKey_setKey_self _ _ _ _ hf]
    exact getKey_setKey_self _ _ _ _ hgy
  · intro fields0 ff0 heq hf0
    cases heq
    rw [hf] at hf0
    cases hf0
    refine ⟨_, _, rfl, keys_setKey _ _ _,
      fun k hk => getKey_setKey_ne _ _ _ _ (Ne.symm hk),
      getKey_setKey_self _ _ _ _ hf, ?_, ?_⟩
    · rw [keys_setKey, keys_setKey]
    · intro k hkx hky
      rw [getKey_setKey_ne _ _ _ _ (Ne.symm hky),
          getKey_setKey_ne _ _ _ _ (Ne.symm hkx)]

/-! ### The loop over all entries -/

theorem mapValsM_eq_none_of_mem (f : Json → Option Json)
    (l : List (String × Json)) (p : String × Json) (hp : p ∈ l)
    (hf : f p.2 = none) : mapValsM f l = none := by
  induction l with
  | nil => simp at hp
  | cons q rest ih =>
    obtain ⟨k1, v1⟩ := q
    rcases List.mem_cons.mp hp with heq | hmem
    · subst heq
      simp [mapValsM, hf]
    · simp only [mapValsM]
      cases hv : f v1 with
      | none => rfl
      | some v2 =>
        rw [ih hmem]

theorem mapValsM_spec (f : Json → Option Json) (l : List (String × Json))
    (h : ∀ p ∈ l, (f p.2).isSome = true) :
    ∃ l2, mapValsM f l = some l2 ∧
      l2.map Prod.fst = l.map Prod.fst ∧
      (∀ k e, getKey l k = some e →
        ∃ e2, f e = some e2 ∧ getKey l2 k = some e2) ∧
      (∀ p2 ∈ l2, ∃ p, p ∈ l ∧ p2.1 = p.1 ∧ f p.2 = some p2.2) := by
  induction l with
  | nil => exact ⟨[], rfl, rfl, by simp [getKey], by simp⟩
  | cons q rest ih =>
    obtain ⟨k1, v1⟩ := q
    have hv1 : (f v1).isSome = true := h (k1, v1) (by simp)
    obtain ⟨v2, hv2⟩ := Option.isSome_iff_exists.mp hv1
    obtain ⟨rest2, hrest, hkeys, hget, hmemr⟩ :=
      ih fun p hp => h p (List.mem_cons_of_mem _ hp)
    refine ⟨(k1, v2) :: rest2, ?_, ?_, ?_, ?_⟩
    · simp [mapValsM, hv2, hrest]
    · simp [hkeys]
    · intro k e hke
      by_cases hk : k1 = k
      · subst hk
        simp [getKey] at hke
        subst hke
        exact ⟨v2, hv2, by simp [getKey]⟩
      · simp only [getKey, if_neg hk] at hke ⊢
        exact hget k e hke
    · intro p2 hp2
      rcases List.mem_cons.mp hp2 with heq | hmem
      · subst heq
        exact ⟨(k1, v1), by simp, rfl, hv2⟩
      · obtain ⟨p, hp, h1, h2⟩ := hmemr p2 hmem
        exact ⟨p, List.mem_cons_of_mem _ hp, h1, h2⟩

/-! ### The whole transformation on a valid document -/

theorem fixFrames_full (fields frames : List (String × Json))
    (hf : getKey fields "frames" = some (.obj frames))
    (hv : ∀ p ∈ frames, entryValid p.2 = true) :
    ∃ frames2, mapValsM fixEntry frames = some frames2 ∧
      fixFrames (.obj fields) = some (.obj (setKey fields "frames" (.obj frames2))) ∧
      frames2.map Prod.fst = frames.map Prod.fst ∧
      (∀ p ∈ frames2, entryValid p.2 = true) ∧
      (∀ id e, getKey frames id = some e →
        ∃ e2, fixEntry e = some e2 ∧ getKey frames2 id = some e2) := by
  have hsome : ∀ p ∈ frames, (fixEntry p.2).isSome = true := by
    intro p hp
    obtain ⟨e2, he2, _⟩ := fixEntry_of_valid p.2 (hv p hp)
    simp [he2]
  obtain ⟨frames2, hmap, hkeys, hget, hmem⟩ := mapValsM_spec fixEntry frames hsome
  refine ⟨frames2, hmap, ?_, hkeys, ?_, hget⟩
  · simp [fixFrames, hf, hmap]
  · intro p2 hp2
    obtain ⟨p, hp, h1, h2⟩ := hmem p2 hp2
    obtain ⟨e2, he2, hval2, _⟩ := fixEntry_of_valid p.2 (hv p hp)
    rw [he2] at h2
    injection h2 with h3
    exact h3 ▸ hval2

/-! ### The error paths -/

theorem addOffsetAt_isSome (ff : List (String × Json)) (k : String) (off : Int) :
    (addOffsetAt ff k off).isSome = numericAt ff k := by
  simp only [addOffsetAt, numericAt]
  cases h : getKey ff k with
  | none => rfl
  | some v =>
    cases v with
    | num n => simp [addInt, isNumeric]
    | flt f => simp [addInt, isNumeric]
    | bool b => simp [addInt, isNumeric]
    | null => simp [addInt, isNumeric]
    | str s => simp [addInt, isNumeric]
    | arr xs => simp [addInt, isNumeric]
    | obj o => simp [addInt, isNumeric]

theorem addOffsetAt_some_shape (ff : List (String × Json)) (k : String)
    (off : Int) (f1 : List (String × Json)) (h : addOffsetAt ff k off = some f1) :
    ∃ v2, f1 = setKey ff k v2 := by
  simp only [addOffsetAt] at h
  cases hg : getKey ff k with
  | none => rw [hg] at h; simp at h
  | some v =>
    rw [hg] at h
    cases ha : addInt v off with
    | none => simp [ha] at h
    | some v2 =>
      simp [ha] at h
      exact ⟨v2, h.symm⟩

theorem entryOk_of_fixEntry_some (e e2 : Json) (h : fixEntry e = some e2) :
    entryOk e = true := by
  cases e with
  | obj fields =>
    simp only [fixEntry] at h
    cases hf : getKey fields "frame" with
    | none => rw [hf] at h; simp at h
    | some v =>
      rw [hf] at h
      cases v with
      | obj ff =>
        cases h1 : addOffsetAt ff "x" OFFSET with
        | none => simp [h1] at h
        | some f1 =>
          cases h2 : addOffsetAt f1 "y" OFFSET with
          | none => simp [h1, h2] at h
          | some f2 =>
            have hx : numericAt ff "x" = true := by
              rw [← addOffsetAt_isSome ff "x" OFFSET, h1]
              rfl
            have hy1 : numericAt f1 "y" = true := by
              rw [← addOffsetAt_isSome f1 "y" OFFSET, h2]
              rfl
            obtain ⟨v2, rfl⟩ := addOffsetAt_some_shape ff "x" OFFSET f1 h1
            have hy : numericAt ff "y" = true := by
              rw [numericAt, ← getKey_setKey_ne ff "x" "y" v2 (by decide)]
              exact hy1
            simp [entryOk, hf, hx, hy]
      | null => simp at h
      | bool b => simp at h
      | num n => simp at h
      | flt f => simp at h
      | str s => simp at h
      | arr xs => simp at h
  | null => simp [fixEntry] at h
  | bool b => simp [fixEntry] at h
  | num n => simp [fixEntry] at h
  | flt f => simp [fixEntry] at h
  | str s => simp [fixEntry] at h
  | arr xs => simp [fixEntry] at h

theorem fixEntry_eq_none_of_bad (e : Json) (h : entryOk e = false) :
    fixEntry e = none := by
  cases hf : fixEntry e with
  | none => rfl
  | some e2 => rw [entryOk_of_fixEntry_some e e2 hf] at h; cases h

theorem fixFrames_eq_none_of_no_frames (data : Json) (h : framesOf data = none) :
    fixFrames data = none := by
  cases data with
  | obj fields =>
    simp only [framesOf] at h
    simp only [fixFrames]
    cases hg : getKey fields "frames" with
    | none => rfl
    | some v =>
      rw [hg] at h
      cases v with
      | obj fr => simp at h
      | null => rfl
      | bool b => rfl
      | num n => rfl
      | flt f => rfl
      | str s => rfl
      | arr xs => rfl
  | null => rfl
  | bool b => rfl
  | num n => rfl
  | flt f => rfl
  | str s => rfl
  | arr xs => rfl

theorem fixFrames_eq_none_of_bad_entry (data : Json)
    (h : docHasBadEntry data = true) : fixFrames data = none := by
  simp only [docHasBadEntry] at h
  cases hfr : framesOf data with
  | none => rw [hfr] at h; simp at h
  | some frames =>
    rw [hfr] at h
    simp only [List.any_eq_true, Bool.not_eq_true'] at h
    obtain ⟨p, hp, hbad⟩ := h
    obtain ⟨fields, rfl, hg⟩ := (framesOf_eq_some data frames).1 hfr
    have hnone : mapValsM fixEntry frames = none :=
      mapValsM_eq_none_of_mem fixEntry frames p hp
        (fixEntry_eq_none_of_bad p.2 hbad)
    simp [fixFrames, hg, hnone]

/-! ### The packaged success theorem on valid documents -/

theorem fixFrames_valid_spec (data : Json) (h : validDoc data = true) :
    ∃ out, fixFrames data = some out ∧ validDoc out = true ∧
      frameIds out = frameIds data ∧
      (∀ id a, coordOf data id "x" = some (.num a) →
        coordOf out id "x" = some (.num (a + OFFSET))) ∧
      (∀ id b, coordOf data id "y" = some (.num b) →
        coordOf out id "y" = some (.num (b + OFFSET))) := by
  obtain ⟨frames, hfr, hv⟩ := (validDoc_iff data).1 h
  obtain ⟨fields, rfl, hg⟩ := (framesOf_eq_some data frames).1 hfr
  obtain ⟨frames2, hmap, hfix, hkeys, hval2, hget⟩ := fixFrames_full fields frames hg hv
  have hfr2 : framesOf (.obj (setKey fields "frames" (.obj frames2))) = some frames2 :=
    (framesOf_eq_some _ _).2 ⟨_, rfl, getKey_setKey_self _ _ _ _ hg⟩
  refine ⟨_, hfix, ?_, ?_, ?_, ?_⟩
  · exact (validDoc_iff _).2 ⟨frames2, hfr2, hval2⟩
  · simp [frameIds, hfr2, hfr, hkeys]
  · intro id a ha
    simp only [coordOf, hfr] at ha
    cases hge : getKey frames id with
    | none => rw [hge] at ha; simp at ha
    | some e =>
      rw [hge] at ha
      have hev : entryValid e = true := hv (id, e) (getKey_mem _ _ _ hge)
      obtain ⟨e2, he2, _, hcx, _, _⟩ := fixEntry_of_valid e hev
      obtain ⟨e2b, hfe, hg2⟩ := hget id e hge
      rw [he2] at hfe
      injection hfe with h3
      simp only [coordOf, hfr2, hg2]
      rw [← h3]
      exact hcx a ha
  · intro id b hb
    simp only [coordOf, hfr] at hb
    cases hge : getKey frames id with
    | none => rw [hge] at hb; simp at hb
    | some e =>
      rw [hge] at hb
      have hev : entryValid e = true := hv (id, e) (getKey_mem _ _ _ hge)
      obtain ⟨e2, he2, _, _, hcy, _⟩ := fixEntry_of_valid e hev
      obtain ⟨e2b, hfe, hg2⟩ := hget id e hge
      rw [he2] at hfe
      injection hfe with h3
      simp only [coordOf, hfr2, hg2]
      rw [← h3]
      exact hcy b hb

/-! ### Number-valued documents: the loop also succeeds on floats -/

theorem numDoc_iff (j : Json) :
    numDoc j = true ↔ ∃ frames, framesOf j = some frames ∧
      ∀ p ∈ frames, entryNumeric p.2 = true := by
  simp only [numDoc]
  cases hfr : framesOf j with
  | none => simp
  | some frames => simp [List.all_eq_true]

theorem numericAt_of_numberAt (ff : List (String × Json)) (k : String)
    (h : numberAt ff k = true) : numericAt ff k = true := by
  simp only [numberAt] at h
  simp only [numericAt]
  cases hg : getKey ff k with
  | none => rw [hg] at h; simp at h
  | some v =>
    rw [hg] at h
    cases v with
    | num n => rfl
    | flt f => rfl
    | bool b => rfl
    | null => simp [isNumber] at h
    | str s => simp [isNumber] at h
    | arr xs => simp [isNumber] at h
    | obj o => simp [isNumber] at h

theorem entryOk_of_entryNumeric (e : Json) (h : entryNumeric e = true) :
    entryOk e = true := by
  cases e with
  | obj fields =>
    simp only [entryNumeric] at h
    simp only [entryOk]
    cases hf : getKey fields "frame" with
    | none => rw [hf] at h; simp at h
    | some v =>
      rw [hf] at h
      cases v with
      | obj ff =>
        simp at h
        show (numericAt ff "x" && numericAt ff "y") = true
        rw [numericAt_of_numberAt ff "x" h.1, numericAt_of_numberAt ff "y" h.2]
        rfl
      | null => simp at h
      | bool b => simp at h
      | num n => simp at h
      | flt f => simp at h
      | str s => simp at h
      | arr xs => simp at h
  | null => simp [entryNumeric] at h
  | bool b => simp [entryNumeric] at h
  | num n => simp [entryNumeric] at h
  | flt f => simp [entryNumeric] at h
  | str s => simp [entryNumeric] at h
  | arr xs => simp [entryNumeric] at h

theorem fixEntry_isSome_of_ok (e : Json) (h : entryOk e = true) :
    (fixEntry e).isSome = true := by
  cases e with
  | obj fields =>
    simp only [entryOk] at h
    cases hf : getKey fields "frame" with
    | none => rw [hf] at h; simp at h
    | some v =>
      rw [hf] at h
      cases v with
      | obj ff =>
        simp at h
        obtain ⟨hx, hy⟩ := h
        have h1 : (addOffsetAt ff "x" OFFSET).isSome = true := by
          rw [addOffsetAt_isSome]
          exact hx
        obtain ⟨f1, hf1⟩ := Option.isSome_iff_exists.mp h1
        obtain ⟨vx2, hshape⟩ := addOffsetAt_some_shape ff "x" OFFSET f1 hf1
        have hy1 : numericAt f1 "y" = numericAt ff "y" := by
          rw [hshape]
          simp only [numericAt]
          rw [getKey_setKey_ne _ _ _ _ (by decide)]
        have h2 : (addOffsetAt f1 "y" OFFSET).isSome = true := by
          rw [addOffsetAt_isSome, hy1]
          exact hy
        obtain ⟨f2, hf2⟩ := Option.isSome_iff_exists.mp h2
        simp [fixEntry, hf, hf1, hf2]
      | null => simp at h
      | bool b => simp at h
      | num n => simp at h
      | flt f => simp at h
      | str s => simp at h
      | arr xs => simp at h
  | null => simp [entryOk] at h
  | bool b => simp [entryOk] at h
  | num n => simp [entryOk] at h
  | flt f => simp [entryOk] at h
  | str s => simp [entryOk] at h
  | arr xs => simp [entryOk] at h

theorem addOffsetAt_known (ff : List (String × Json)) (k : String) (off : Int)
    (f1 : List (String × Json)) (v : Json) (h : addOffsetAt ff k off = some f1)
    (hv : getKey ff k = some v) :
    ∃ v2, addInt v off = some v2 ∧ f1 = setKey ff k v2 := by
  simp only [addOffsetAt, hv] at h
  cases ha : addInt v off with
  | none => rw [ha] at h; simp at h
  | some v2 =>
    rw [ha] at h
    simp only [Option.some.injEq] at h
    exact ⟨v2, rfl, h.symm⟩

theorem fixEntry_some_shape (e e2 : Json) (h : fixEntry e = some e2) :
    ∃ fields ff f1 f2, e = .obj fields ∧
      getKey fields "frame" = some (.obj ff) ∧
      addOffsetAt ff "x" OFFSET = some f1 ∧
      addOffsetAt f1 "y" OFFSET = some f2 ∧
      e2 = .obj (setKey fields "frame" (.obj f2)) := by
  cases e with
  | obj fields =>
    simp only [fixEntry] at h
    cases hf : getKey fields "frame" with
    | none => rw [hf] at h; simp at h
    | some v =>
      rw [hf] at h
      cases v with
      | obj ff =>
        cases h1 : addOffsetAt ff "x" OFFSET with
        | none => simp [h1] at h
        | some f1 =>
          cases h2 : addOffsetAt f1 "y" OFFSET with
          | none => simp [h1, h2] at h
          | some f2 =>
            simp [h1, h2] at h
            exact ⟨fields, ff, f1, f2, rfl, hf, h1, h2, h.symm⟩
      | null => simp at h
      | bool b => simp at h
      | num n => simp at h
      | flt f => simp at h
      | str s => simp at h
      | arr xs => simp at h
  | null => simp [fixEntry] at h
  | bool b => simp [fixEntry] at h
  | num n => simp [fixEntry] at h
  | flt f => simp [fixEntry] at h
  | str s => simp [fixEntry] at h
  | arr xs => simp [fixEntry] at h

theorem fixEntry_coord (e e2 : Json) (h : fixEntry e = some e2) :
    (∀ v, entryCoord e "x" = some v →
      ∃ v2, addInt v OFFSET = some v2 ∧ entryCoord e2 "x" = some v2) ∧
    (∀ v, entryCoord e "y" = some v →
      ∃ v2, addInt v OFFSET = some v2 ∧ entryCoord e2 "y" = some v2) := by
  obtain ⟨fields, ff, f1, f2, rfl, hf, h1, h2, rfl⟩ := fixEntry_some_shape e e2 h
  have hval : getKey (setKey fields "frame" (.obj f2)) "frame" = some (.obj f2) :=
    getKey_setKey_self _ _ _ _ hf
  constructor
  · intro v hv
    simp only [entryCoord, hf] at hv
    obtain ⟨v2, ha, hf1⟩ := addOffsetAt_known ff "x" OFFSET f1 v h1 hv
    obtain ⟨w2, hf2s⟩ := addOffsetAt_some_shape f1 "y" OFFSET f2 h2
    refine ⟨v2, ha, ?_⟩
    simp only [entryCoord, hval]
    rw [hf2s, getKey_setKey_ne _ _ _ _ (by decide), hf1]
    exact getKey_setKey_self _ _ _ _ hv
  · intro v hv
    simp only [entryCoord, hf] at hv
    obtain ⟨vx2, hf1⟩ := addOffsetAt_some_shape ff "x" OFFSET f1 h1
    have hv1 : getKey f1 "y" = some v := by
      rw [hf1, getKey_setKey_ne _ _ _ _ (by decide)]
      exact hv
    obtain ⟨v2, ha, hf2⟩ := addOffsetAt_known f1 "y" OFFSET f2 v h2 hv1
    refine ⟨v2, ha, ?_⟩
    simp only [entryCoord, hval]
    rw [hf2]
    exact getKey_setKey_self _ _ _ _ hv1

/-! ### The claims -/

/-- C1: for every valid Atlas Document (a JSON object whose `"frames"` key
maps each id to an entry with a nested `"frame"` object having numeric `x`
and `y`), the corrector succeeds and produces a document in which every
frame's `x` equals the input `x + 2` and every `y` equals the input `y + 2`,
with the frame ids unchanged (none added or removed), uniformly over all
frames. -/
theorem C1_uniform_shift (data : Json) (h : validDoc data = true) :
    ∃ out, fixFrames data = some out ∧
      frameIds out = frameIds data ∧
      (∀ id a, coordOf data id "x" = some (.num a) →
        coordOf out id "x" = some (.num (a + 2))) ∧
      (∀ id b, coordOf data id "y" = some (.num b) →
        coordOf out id "y" = some (.num (b + 2))) := by
  obtain ⟨out, hfix, _, hids, hx, hy⟩ := fixFrames_valid_spec data h
  exact ⟨out, hfix, hids, hx, hy⟩

/-- Witness for C1, evaluated on `sampleDoc`. -/
theorem C1_uniform_shift_witness :
    validDoc sampleDoc = true ∧
      ∃ out, fixFrames sampleDoc = some out ∧
        frameIds out = frameIds sampleDoc ∧
        (∀ id a, coordOf sampleDoc id "x" = some (.num a) →
          coordOf out id "x" = some (.num (a + 2))) ∧
        (∀ id b, coordOf sampleDoc id "y" = some (.num b) →
          coordOf out id "y" = some (.num (b + 2))) :=
  ⟨by decide, C1_uniform_shift sampleDoc (by decide)⟩

/-- C2: on a valid Atlas Document, every field other than each frame's `x`
and `y` is preserved: document-level keys (order and values, except the
`"frames"` value), the frame ids (order included), the frame-entry-level
keys and values (except the `"frame"` value), and the frame-box keys and
values other than `"x"`/`"y"` (`w`, `h`, extras) all carry over unchanged;
the serializer then emits keys in this preserved insertion order. -/
theorem C2_structural_preservation (fields frames : List (String × Json))
    (hg : getKey fields "frames" = some (.obj frames))
    (hv : ∀ p ∈ frames, entryValid p.2 = true) :
    ∃ frames2,
      fixFrames (.obj fields) = some (.obj (setKey fields "frames" (.obj frames2))) ∧
      (setKey fields "frames" (.obj frames2)).map Prod.fst = fields.map Prod.fst ∧
      (∀ k, k ≠ "frames" →
        getKey (setKey fields "frames" (.obj frames2)) k = getKey fields k) ∧
      frames2.map Prod.fst = frames.map Prod.fst ∧
      ∀ id e, getKey frames id = some e →
        ∃ e2, getKey frames2 id = some e2 ∧ entryPreserved e e2 := by
  obtain ⟨frames2, hmap, hfix, hkeys, hval2, hget⟩ := fixFrames_full fields frames hg hv
  refine ⟨frames2, hfix, keys_setKey _ _ _,
    fun k hk => getKey_setKey_ne _ _ _ _ (Ne.symm hk), hkeys, ?_⟩
  intro id e hge
  have hev : entryValid e = true := hv (id, e) (getKey_mem _ _ _ hge)
  obtain ⟨e2, he2, _, _, _, hpres⟩ := fixEntry_of_valid e hev
  obtain ⟨e2b, hfe, hg2⟩ := hget id e hge
  rw [he2] at hfe
  injection hfe with h3
  exact ⟨e2b, hg2, h3 ▸ hpres⟩

/-- Witness for C2, evaluated on the fields of `sampleDoc`. -/
theorem C2_structural_preservation_witness :
    (getKey sampleFields "frames" = some (.obj sampleFrames) ∧
      ∀ p ∈ sampleFrames, entryValid p.2 = true) ∧
    ∃ frames2,
      fixFrames (.obj sampleFields) =
        some (.obj (setKey sampleFields "frames" (.obj frames2))) ∧
      (setKey sampleFields "frames" (.obj frames2)).map Prod.fst =
        sampleFields.map Prod.fst ∧
      (∀ k, k ≠ "frames" →
        getKey (setKey sampleFields "frames" (.obj frames2)) k =
          getKey sampleFields k) ∧
      frames2.map Prod.fst = sampleFrames.map Prod.fst ∧
      ∀ id e, getKey sampleFrames id = some e →
        ∃ e2, getKey frames2 id = some e2 ∧ entryPreserved e e2 :=
  ⟨⟨rfl, by decide⟩, C2_structural_preservation sampleFields sampleFrames rfl (by decide)⟩

/-- C3: for every failing input — input file missing, input not valid JSON,
no `"frames"` object, or some frame entry the loop body raises on (one
lacking a numeric `frame.x` or `frame.y`) — the process terminates with an
unhandled error (`ok = false`), having produced no events at all: no output
file, not even a partial one, and no confirmation line. This covers in
particular a document with one well-formed and one malformed entry. -/
theorem C3_failure_no_output (readFS : String → ReadResult)
    (h : readFS inputPath = .missing ∨ readFS inputPath = .invalid ∨
      ∃ data, readFS inputPath = .parsed data ∧
        (framesOf data = none ∨ docHasBadEntry data = true)) :
    runScript readFS = ⟨[], false⟩ := by
  rcases h with h1 | h1 | ⟨data, h1, hbad⟩
  · simp [runScript, h1]
  · simp [runScript, h1]
  · have hnone : fixFrames data = none := by
      rcases hbad with hb | hb
      · exact fixFrames_eq_none_of_no_frames data hb
      · exact fixFrames_eq_none_of_bad_entry data hb
    simp [runScript, h1, hnone]

/-- Witness for C3, evaluated on `mixedBadDoc` (one good, one bad entry). -/
theorem C3_failure_no_output_witness :
    docHasBadEntry mixedBadDoc = true ∧
      runScript (fun _ => .parsed mixedBadDoc) = ⟨[], false⟩ :=
  ⟨by decide, C3_failure_no_output _ (Or.inr (Or.inr
    ⟨mixedBadDoc, rfl, Or.inr (by decide)⟩))⟩

/-- C4: the corrector is not idempotent: on any valid Atlas Document,
applying the transformation twice shifts every frame coordinate by exactly
`+4`, not `+2`. -/
theorem C4_not_idempotent (data : Json) (h : validDoc data = true) :
    ∃ out out2, fixFrames data = some out ∧ fixFrames out = some out2 ∧
      (∀ id a, coordOf data id "x" = some (.num a) →
        coordOf out2 id "x" = some (.num (a + 4)) ∧
          coordOf out2 id "x" ≠ some (.num (a + 2))) ∧
      (∀ id b, coordOf data id "y" = some (.num b) →
        coordOf out2 id "y" = some (.num (b + 4)) ∧
          coordOf out2 id "y" ≠ some (.num (b + 2))) := by
  obtain ⟨out, hfix, hval, hids, hx, hy⟩ := fixFrames_valid_spec data h
  obtain ⟨out2, hfix2, hval2, hids2, hx2, hy2⟩ := fixFrames_valid_spec out hval
  refine ⟨out, out2, hfix, hfix2, ?_, ?_⟩
  · intro id a ha
    have h2 := hx2 id (a + OFFSET) (hx id a ha)
    have h4 : a + OFFSET + OFFSET = a + 4 := by simp [OFFSET]; omega
    rw [h4] at h2
    refine ⟨h2, ?_⟩
    rw [h2]
    intro heq
    simp only [Option.some.injEq, Json.num.injEq] at heq
    omega
  · intro id b hb
    have h2 := hy2 id (b + OFFSET) (hy id b hb)
    have h4 : b + OFFSET + OFFSET = b + 4 := by simp [OFFSET]; omega
    rw [h4] at h2
    refine ⟨h2, ?_⟩
    rw [h2]
    intro heq
    simp only [Option.some.injEq, Json.num.injEq] at heq
    omega

/-- Witness for C4, evaluated on `sampleDoc`. -/
theorem C4_not_idempotent_witness :
    validDoc sampleDoc = true ∧
      ∃ out out2, fixFrames sampleDoc = some out ∧ fixFrames out = some out2 ∧
        (∀ id a, coordOf sampleDoc id "x" = some (.num a) →
          coordOf out2 id "x" = some (.num (a + 4)) ∧
            coordOf out2 id "x" ≠ some (.num (a + 2))) ∧
        (∀ id b, coordOf sampleDoc id "y" = some (.num b) →
          coordOf out2 id "y" = some (.num (b + 4)) ∧
            coordOf out2 id "y" ≠ some (.num (b + 2))) :=
  ⟨by decide, C4_not_idempotent sampleDoc (by decide)⟩

/-- C5: on an input document whose `"frames"` mapping is empty, the run
succeeds: the output file holds the document unchanged (empty `"frames"`,
all other fields intact — the serialized input document itself), and the
confirmation line is printed. -/
theorem C5_empty_frames (readFS : String → ReadResult)
    (fields : List (String × Json))
    (h1 : readFS inputPath = .parsed (.obj fields))
    (h2 : getKey fields "frames" = some (.obj [])) :
    runScript readFS =
      ⟨[.fileWrite outputPath (dumps (.obj fields)), .consoleOut successMessage],
        true⟩ ∧
    framesOf (.obj fields) = some [] := by
  have hs : setKey fields "frames" (.obj []) = fields := setKey_self _ _ _ h2
  have hfix : fixFrames (.obj fields) = some (.obj fields) := by
    simp [fixFrames, h2, mapValsM, hs]
  constructor
  · simp [runScript, h1, hfix]
  · simp [framesOf, h2]

/-- Witness for C5, evaluated on `emptyFramesDoc`. -/
theorem C5_empty_frames_witness :
    runScript (fun _ => .parsed emptyFramesDoc) =
      ⟨[.fileWrite outputPath (dumps (.obj emptyFramesFields)),
        .consoleOut successMessage], true⟩ ∧
    framesOf (.obj emptyFramesFields) = some [] :=
  C5_empty_frames (fun _ => .parsed emptyFramesDoc) emptyFramesFields rfl rfl

/-- C6: on every successful run, the events are exactly one file write
followed by the one fixed confirmation line — printed after the write,
unconditionally, even when nothing changed; on failure nothing is printed
and nothing is written. -/
theorem C6_console_output (readFS : String → ReadResult) :
    ((runScript readFS).ok = true →
      ∃ c, (runScript readFS).events =
        [.fileWrite outputPath c, .consoleOut successMessage]) ∧
    ((runScript readFS).ok = false → (runScript readFS).events = []) ∧
    printedLines (runScript readFS) =
      (if (runScript readFS).ok = true then [successMessage] else []) := by
  cases hr : readFS inputPath with
  | missing => simp [runScript, hr, printedLines]
  | invalid => simp [runScript, hr, printedLines]
  | parsed data =>
    cases hf : fixFrames data with
    | none => simp [runScript, hr, hf, printedLines]
    | some out =>
      refine ⟨fun _ => ⟨dumps out, ?_⟩, fun hok => ?_, ?_⟩
      · simp [runScript, hr, hf]
      · simp [runScript, hr, hf] at hok
      · simp [runScript, hr, hf, printedLines]

/-- Witness for C6, evaluated on a run with a missing input file. -/
theorem C6_console_output_witness :
    (runScript (fun _ => ReadResult.missing)).events = [] :=
  (C6_console_output (fun _ => ReadResult.missing)).2.1 rfl

/-- C7: the hard-coded paths are `collectables.json` (read) and
`collectables_padded.json` (written); the output content is the serializer's
2-space-indented text of the transformed document; the only file ever
written is the output path; and nothing besides the content read at the
input path influences the run (no arguments, environment, or
configuration exist in the model of the script). -/
theorem C7_hardcoded_paths :
    inputPath = "collectables.json" ∧
    outputPath = "collectables_padded.json" ∧
    (∀ n, (indentStr n).length = 2 * n) ∧
    (∀ readFS p, p ∈ writtenPaths (runScript readFS) → p = outputPath) ∧
    (∀ readFS data out, readFS inputPath = .parsed data →
      fixFrames data = some out →
      (runScript readFS).events =
        [.fileWrite outputPath (dumps out), .consoleOut successMessage]) ∧
    (∀ r1 r2 : String → ReadResult, r1 inputPath = r2 inputPath →
      runScript r1 = runScript r2) := by
  refine ⟨rfl, rfl, ?_, ?_, ?_, ?_⟩
  · intro n
    induction n with
    | zero => rfl
    | succ m ih =>
      have h2 : ("  ").length = 2 := rfl
      simp only [indentStr, String.length_append, ih, h2]
      omega
  · intro readFS p hp
    cases hr : readFS inputPath with
    | missing => simp [runScript, hr, writtenPaths] at hp
    | invalid => simp [runScript, hr, writtenPaths] at hp
    | parsed data =>
      cases hf : fixFrames data with
      | none => simp [runScript, hr, hf, writtenPaths] at hp
      | some out =>
        simp [runScript, hr, hf, writtenPaths] at hp
        exact hp
  · intro readFS data out h1 h2
    simp [runScript, h1, h2]
  · intro r1 r2 h
    simp [runScript, h]

/-- C8: the input file is never written: on every run the input path is not
among the written paths, and every written path is the output path. -/
theorem C8_input_untouched (readFS : String → ReadResult) :
    inputPath ∉ writtenPaths (runScript readFS) ∧
    ∀ p ∈ writtenPaths (runScript readFS), p = outputPath := by
  have hne : inputPath ≠ outputPath := by decide
  cases hr : readFS inputPath with
  | missing => simp [runScript, hr, writtenPaths]
  | invalid => simp [runScript, hr, writtenPaths]
  | parsed data =>
    cases hf : fixFrames data with
    | none => simp [runScript, hr, hf, writtenPaths]
    | some out =>
      constructor
      · simp [runScript, hr, hf, writtenPaths, hne]
      · intro p hp
        simp [runScript, hr, hf, writtenPaths] at hp
        exact hp

/-- Witness for C8, evaluated on a successful run over `sampleDoc`. -/
theorem C8_input_untouched_witness :
    inputPath ∉ writtenPaths (runScript (fun _ => .parsed sampleDoc)) :=
  (C8_input_untouched (fun _ => .parsed sampleDoc)).1

/-- C10: the corrector is deterministic: two runs whose reads of the input
path yield the same loaded document produce identical events — identical
output file content and identical standard output; nothing else (no
environment, randomness, or time) enters the model. -/
theorem C10_deterministic (r1 r2 : String → ReadResult)
    (h : r1 inputPath = r2 inputPath) :
    runScript r1 = runScript r2 ∧
    printedLines (runScript r1) = printedLines (runScript r2) ∧
    writtenPaths (runScript r1) = writtenPaths (runScript r2) := by
  have heq : runScript r1 = runScript r2 := by
    simp [runScript, h]
  exact ⟨heq, by rw [heq], by rw [heq]⟩

/-- Witness for C10: two syntactically different read functions agreeing at
the input path. -/
theorem C10_deterministic_witness :
    runScript (fun _ => .parsed sampleDoc) =
      runScript (fun p => if p = inputPath then .parsed sampleDoc else .missing) ∧
    printedLines (runScript (fun _ => .parsed sampleDoc)) =
      printedLines (runScript
        (fun p => if p = inputPath then .parsed sampleDoc else .missing)) ∧
    writtenPaths (runScript (fun _ => .parsed sampleDoc)) =
      writtenPaths (runScript
        (fun p => if p = inputPath then .parsed sampleDoc else .missing)) :=
  C10_deterministic _ _ (by simp)

/-- C9: under the precondition that `"frames"` is an object and every entry
has a `"frame"` object whose `x` and `y` are JSON numbers — integers
(`num`, negative, zero or arbitrarily large) or non-integer floats
(`flt`) — the error branch of the transformation is unreachable: the run
cannot fail. For integer coordinates the addition is exact, with no
overflow and no rounding (the embedding's integers are unbounded, as
Python's `int` is arbitrary-precision); for float coordinates the result is
the IEEE double `f + 2`, exactly what CPython computes. -/
theorem C9_no_failure_on_numbers (data : Json) (h : numDoc data = true) :
    (fixFrames data).isSome = true ∧
    ∀ out, fixFrames data = some out →
      (∀ id a, coordOf data id "x" = some (.num a) →
        coordOf out id "x" = some (.num (a + 2))) ∧
      (∀ id b, coordOf data id "y" = some (.num b) →
        coordOf out id "y" = some (.num (b + 2))) ∧
      (∀ id f, coordOf data id "x" = some (.flt f) →
        coordOf out id "x" = some (.flt (f + Float.ofInt 2))) ∧
      (∀ id f, coordOf data id "y" = some (.flt f) →
        coordOf out id "y" = some (.flt (f + Float.ofInt 2))) := by
  obtain ⟨frames, hfr, hnum⟩ := (numDoc_iff data).1 h
  obtain ⟨fields, rfl, hg⟩ := (framesOf_eq_some _ frames).1 hfr
  have hok : ∀ p ∈ frames, (fixEntry p.2).isSome = true := fun p hp =>
    fixEntry_isSome_of_ok p.2 (entryOk_of_entryNumeric p.2 (hnum p hp))
  obtain ⟨frames2, hmap, hkeys, hget, hmem⟩ := mapValsM_spec fixEntry frames hok
  have hfix : fixFrames (.obj fields) =
      some (.obj (setKey fields "frames" (.obj frames2))) := by
    simp [fixFrames, hg, hmap]
  have hfr2 : framesOf (.obj (setKey fields "frames" (.obj frames2))) =
      some frames2 :=
    (framesOf_eq_some _ _).2 ⟨_, rfl, getKey_setKey_self _ _ _ _ hg⟩
  refine ⟨by simp [hfix], ?_⟩
  intro out hout
  rw [hfix] at hout
  injection hout with h3
  subst h3
  have htrans : ∀ id c v, c = "x" ∨ c = "y" →
      coordOf (.obj fields) id c = some v →
      ∃ v2, addInt v OFFSET = some v2 ∧
        coordOf (.obj (setKey fields "frames" (.obj frames2))) id c = some v2 := by
    intro id c v hc hv
    simp only [coordOf, hfr] at hv
    cases hge : getKey frames id with
    | none => rw [hge] at hv; simp at hv
    | some e =>
      rw [hge] at hv
      obtain ⟨e2, hfe, hg2⟩ := hget id e hge
      obtain ⟨hcx, hcy⟩ := fixEntry_coord e e2 hfe
      rcases hc with rfl | rfl
      · obtain ⟨v2, ha, hc2⟩ := hcx v hv
        refine ⟨v2, ha, ?_⟩
        simp only [coordOf, hfr2, hg2]
        exact hc2
      · obtain ⟨v2, ha, hc2⟩ := hcy v hv
        refine ⟨v2, ha, ?_⟩
        simp only [coordOf, hfr2, hg2]
        exact hc2
  refine ⟨?_, ?_, ?_, ?_⟩
  · intro id a ha
    obtain ⟨v2, hadd, hco⟩ := htrans id "x" (.num a) (Or.inl rfl) ha
    have he : addInt (.num a) OFFSET = some (.num (a + 2)) := rfl
    rw [he] at hadd
    injection hadd with h4
    rwa [← h4] at hco
  · intro id b hb
    obtain ⟨v2, hadd, hco⟩ := htrans id "y" (.num b) (Or.inr rfl) hb
    have he : addInt (.num b) OFFSET = some (.num (b + 2)) := rfl
    rw [he] at hadd
    injection hadd with h4
    rwa [← h4] at hco
  · intro id f hf
    obtain ⟨v2, hadd, hco⟩ := htrans id "x" (.flt f) (Or.inl rfl) hf
    have he : addInt (.flt f) OFFSET = some (.flt (f + Float.ofInt 2)) := rfl
    rw [he] at hadd
    injection hadd with h4
    rwa [← h4] at hco
  · intro id f hf
    obtain ⟨v2, hadd, hco⟩ := htrans id "y" (.flt f) (Or.inr rfl) hf
    have he : addInt (.flt f) OFFSET = some (.flt (f + Float.ofInt 2)) := rfl
    rw [he] at hadd
    injection hadd with h4
    rwa [← h4] at hco

/-- Witness for C9, evaluated on a document with a negative, a zero, a very
large and two non-integer (float) coordinates. -/
theorem C9_no_failure_on_numbers_witness :
    numDoc extremeDoc = true ∧
      ((fixFrames extremeDoc).isSome = true ∧
      ∀ out, fixFrames extremeDoc = some out →
        (∀ id a, coordOf extremeDoc id "x" = some (.num a) →
          coordOf out id "x" = some (.num (a + 2))) ∧
        (∀ id b, coordOf extremeDoc id "y" = some (.num b) →
          coordOf out id "y" = some (.num (b + 2))) ∧
        (∀ id f, coordOf extremeDoc id "x" = some (.flt f) →
          coordOf out id "x" = some (.flt (f + Float.ofInt 2))) ∧
        (∀ id f, coordOf extremeDoc id "y" = some (.flt f) →
          coordOf out id "y" = some (.flt (f + Float.ofInt 2)))) :=
  ⟨by decide, C9_no_failure_on_numbers extremeDoc (by decide)⟩

end FixPadding
